import Mathlib

/-!
Verification of the prediction routine of m3f (`m3f_tib_predictMex.c`).

The C code computes, for a batch of dyads `(users[e], items[e])` and a
struct array of posterior samples, a prediction vector: per sample a
topic-indexed `d` offset (user topics), a topic-indexed `c` offset (item
topics) and a matrix-factorization plus global-bias term are optionally
added, and at the end the accumulator is divided by the number of samples
when that number exceeds one.

The embedding below is a shallow model of that code over exact rationals:
MATLAB column-major matrices become flat `List ℚ` values with the same
index arithmetic as the C source, 1-based `uint32` index vectors become
`List Nat`, the optional topic-assignment arrays become
`Option (List Nat)`, and the C library function `exp` becomes an
explicit function parameter `rexp` (its numerical value is irrelevant to
every structural property proved here).
-/

/-- One posterior sample, mirroring the fields read from the MATLAB
struct array: global bias `chi`, log topic-probability tables
`logthetaU` (KU x numUsers) and `logthetaM` (KM x numItems), latent
factors `a` (numFacs x numUsers) and `b` (numFacs x numItems), and
offset tables `c` (KM x numUsers) and `d` (KU x numItems), each stored
column-major as in MATLAB. -/
structure Sample where
  chi : ℚ
  logthetaU : List ℚ
  logthetaM : List ℚ
  a : List ℚ
  b : List ℚ
  c : List ℚ
  d : List ℚ
deriving DecidableEq

/-- The three inclusion flags `add[0..2]` of the C code: `addBase`
(factorization and global bias), `addC` (item-topic offsets `c`),
`addD` (user-topic offsets `d`). -/
structure Flags where
  addBase : Bool
  addC : Bool
  addD : Bool
deriving DecidableEq

/-- Placeholder sample used only to give `List.headD` a default; every
call modelled here has at least one sample, as in the C code, where
reading field dimensions from sample 0 presupposes it exists. -/
def defaultSample : Sample :=
  ⟨0, [], [], [], [], [], []⟩

/-- The quantity `addOffsets` adds to `preds[e]`, following the three
branches of the C function: given topics (`zU` present) it reads
`d[(items[e]-1)*KU + (zU[e]-1)]`; with topics integrated out and
`KU > 1` it sums `d[(items[e]-1)*KU + i] * exp(logthetaU[(users[e]-1)*KU + i])`
over `i < KU`; with a single topic it reads `d[(items[e]-1)*KU]`. -/
def offsetTerm (rexp : ℚ → ℚ) (users items : List Nat) (KU : Nat)
    (logthetaU d : List ℚ) (zU : Option (List Nat)) (e : Nat) : ℚ :=
  match zU with
  | some z => d.getD ((items.getD e 0 - 1) * KU + (z.getD e 0 - 1)) 0
  | none =>
    if 1 < KU then
      ∑ i ∈ Finset.range KU,
        d.getD ((items.getD e 0 - 1) * KU + i) 0 *
          rexp (logthetaU.getD ((users.getD e 0 - 1) * KU + i) 0)
    else
      d.getD ((items.getD e 0 - 1) * KU) 0

/-- The C function `addOffsets`: adds to each accumulator slot
`preds[e]`, `e < numExamples`, the offset contribution `offsetTerm`. -/
def addOffsets (rexp : ℚ → ℚ) (users items : List Nat) (KU numExamples : Nat)
    (logthetaU d : List ℚ) (zU : Option (List Nat)) (preds : List ℚ) : List ℚ :=
  (List.range numExamples).map
    (fun e => preds.getD e 0 + offsetTerm rexp users items KU logthetaU d zU e)

/-- The BLAS `ddot` call of the C code with unit strides: the inner
product of `numFacs` consecutive entries of `a` starting at `aOff` with
`numFacs` consecutive entries of `b` starting at `bOff`. -/
def ddot (numFacs : Nat) (a b : List ℚ) (aOff bOff : Nat) : ℚ :=
  ∑ f ∈ Finset.range numFacs, a.getD (aOff + f) 0 * b.getD (bOff + f) 0

/-- The `addBase` contribution for example `e` of one sample: with
`numFacs > 0` it is `chi + ddot(a[:,users[e]], b[:,items[e]])`, and with
`numFacs = 0` it is `chi` alone, exactly as in lines 152-166 of the C
code. -/
def baseTerm (users items : List Nat) (numFacs : Nat) (chi : ℚ)
    (a b : List ℚ) (e : Nat) : ℚ :=
  if 0 < numFacs then
    chi + ddot numFacs a b (numFacs * (users.getD e 0 - 1))
      (numFacs * (items.getD e 0 - 1))
  else
    chi

/-- One iteration of the per-sample loop of `mexFunction`: conditionally
add the `d` offsets (user topics), the `c` offsets (item topics, axes
swapped) and the factorization-plus-bias term into `preds`. Note `chi`
is a parameter fixed by the caller: the C code reads it from sample 0
once, outside this loop. -/
def sampleStep (rexp : ℚ → ℚ) (users items : List Nat)
    (KU KM numFacs numExamples : Nat) (chi : ℚ)
    (zU zM : Option (List Nat)) (flags : Flags)
    (preds : List ℚ) (s : Sample) : List ℚ :=
  let preds1 :=
    if 0 < KU ∧ flags.addD = true then
      addOffsets rexp users items KU numExamples s.logthetaU s.d zU preds
    else preds
  let preds2 :=
    if 0 < KM ∧ flags.addC = true then
      addOffsets rexp items users KM numExamples s.logthetaM s.c zM preds1
    else preds1
  if flags.addBase = true then
    (List.range numExamples).map
      (fun e => preds2.getD e 0 + baseTerm users items numFacs chi s.a s.b e)
  else preds2

/-- The accumulator after the whole per-sample loop of `mexFunction`:
`preds` starts as zeros (the freshly allocated MATLAB output array) and
the contributions of each sample are added in turn. As in the C code, the
`chi` used is that of sample 0, read once before the loop. -/
def accumPreds (rexp : ℚ → ℚ) (users items : List Nat) (samples : List Sample)
    (KU KM numFacs : Nat) (zU zM : Option (List Nat)) (flags : Flags) : List ℚ :=
  samples.foldl
    (sampleStep rexp users items KU KM numFacs users.length
      (samples.headD defaultSample).chi zU zM flags)
    (List.replicate users.length 0)

/-- The whole `mexFunction` computation: accumulate all samples, then
divide elementwise by the number of samples when it exceeds one. -/
def predict (rexp : ℚ → ℚ) (users items : List Nat) (samples : List Sample)
    (KU KM numFacs : Nat) (zU zM : Option (List Nat)) (flags : Flags) : List ℚ :=
  if 1 < samples.length then
    (accumPreds rexp users items samples KU KM numFacs zU zM flags).map
      (fun x => x / (samples.length : ℚ))
  else accumPreds rexp users items samples KU KM numFacs zU zM flags

/-- The final step of `mexFunction` as a scalar operation: divide by the
sample count only when it exceeds one. -/
def postAvg (numSamples : Nat) (x : ℚ) : ℚ :=
  if 1 < numSamples then x / (numSamples : ℚ) else x

/-- The total contribution of one sample `s` to accumulator slot `e`
within one iteration of the per-sample loop: the two conditional offset
terms plus the conditional base term. -/
def perSampleContrib (rexp : ℚ → ℚ) (users items : List Nat)
    (KU KM numFacs : Nat) (chi : ℚ) (zU zM : Option (List Nat))
    (flags : Flags) (s : Sample) (e : Nat) : ℚ :=
  (if 0 < KU ∧ flags.addD = true then
    offsetTerm rexp users items KU s.logthetaU s.d zU e else 0) +
  (if 0 < KM ∧ flags.addC = true then
    offsetTerm rexp items users KM s.logthetaM s.c zM e else 0) +
  (if flags.addBase = true then baseTerm users items numFacs chi s.a s.b e else 0)

/-- Flags selecting only the factorization-plus-bias contribution. -/
def flagsBase : Flags :=
  ⟨true, false, false⟩

/-- Concrete sample for the factorization scenario of the spec: chi = 1,
one factor, a = [2, 3] over two row entities, b = [5] over one column
entity, no topics. -/
def sample8 : Sample :=
  ⟨1, [], [], [2, 3], [5], [], []⟩

/-- Concrete sample with chi = 0, one zero factor per entity. -/
def sampleChi0 : Sample :=
  ⟨0, [], [], [0], [0], [], []⟩

/-- Concrete sample with chi = 2, one zero factor per entity. -/
def sampleChi2 : Sample :=
  ⟨2, [], [], [0], [0], [], []⟩

/-- Agreement of two optional topic-assignment arrays at position `e`:
both absent, or both present with the same entry at `e`. -/
def zAgree (z z' : Option (List Nat)) (e : Nat) : Prop :=
  match z, z' with
  | none, none => True
  | some l, some l' => l.getD e 0 = l'.getD e 0
  | _, _ => False

/-- Reading a map over `List.range N` below index `N`. -/
theorem getD_map_range {f : Nat → ℚ} {N e : Nat} (h : e < N) :
    ((List.range N).map f).getD e 0 = f e := by
  simp [List.getD_eq_getElem?_getD, List.getElem?_map, List.getElem?_range, h]

/-- Reading a mapped list below its length. -/
theorem getD_map_of_lt {l : List ℚ} {f : ℚ → ℚ} {e : Nat} (h : e < l.length) :
    (l.map f).getD e 0 = f (l.getD e 0) := by
  simp [List.getD_eq_getElem?_getD, List.getElem?_map, List.getElem?_eq_getElem h]

/-- Reading the all-zero initial accumulator gives zero at any index. -/
theorem getD_replicate_zero {N e : Nat} : (List.replicate N (0 : ℚ)).getD e 0 = 0 := by
  rcases Nat.lt_or_ge e N with h | h
  · simp [List.getD_eq_getElem?_getD, List.getElem?_replicate, h]
  · have h2 : (List.replicate N (0 : ℚ)).length ≤ e := by simpa using h
    simp [List.getD_eq_getElem?_getD, List.getElem?_eq_none h2]

/-- `addOffsets` returns a vector of length `numExamples`. -/
theorem addOffsets_length {rexp : ℚ → ℚ} {users items : List Nat}
    {KU numExamples : Nat} {lt d : List ℚ} {zU : Option (List Nat)}
    {preds : List ℚ} :
    (addOffsets rexp users items KU numExamples lt d zU preds).length =
      numExamples := by
  simp [addOffsets]

/-- `addOffsets` adds exactly `offsetTerm` to each slot below
`numExamples`. -/
theorem addOffsets_getD {rexp : ℚ → ℚ} {users items : List Nat}
    {KU numExamples : Nat} {lt d : List ℚ} {zU : Option (List Nat)}
    {preds : List ℚ} {e : Nat} (he : e < numExamples) :
    (addOffsets rexp users items KU numExamples lt d zU preds).getD e 0 =
      preds.getD e 0 + offsetTerm rexp users items KU lt d zU e := by
  unfold addOffsets
  exact getD_map_range he

/-- One iteration of the per-sample loop preserves the accumulator
length. -/
theorem sampleStep_length {rexp : ℚ → ℚ} {users items : List Nat}
    {KU KM numFacs N : Nat} {chi : ℚ} {zU zM : Option (List Nat)}
    {flags : Flags} {preds : List ℚ} {s : Sample} (h : preds.length = N) :
    (sampleStep rexp users items KU KM numFacs N chi zU zM flags preds s).length
      = N := by
  unfold sampleStep
  split_ifs <;> simp [addOffsets_length, h]

/-- One iteration of the per-sample loop adds exactly
`perSampleContrib` to each accumulator slot. -/
theorem sampleStep_getD {rexp : ℚ → ℚ} {users items : List Nat}
    {KU KM numFacs N : Nat} {chi : ℚ} {zU zM : Option (List Nat)}
    {flags : Flags} {preds : List ℚ} {s : Sample} {e : Nat}
    (he : e < N) :
    (sampleStep rexp users items KU KM numFacs N chi zU zM flags preds s).getD e 0
      = preds.getD e 0 +
        perSampleContrib rexp users items KU KM numFacs chi zU zM flags s e := by
  unfold sampleStep perSampleContrib
  split_ifs <;>
    simp only [getD_map_range he, addOffsets_getD he, add_zero, zero_add] <;>
    ring

/-- The whole per-sample loop preserves the accumulator length. -/
theorem foldl_sampleStep_length {rexp : ℚ → ℚ} {users items : List Nat}
    {KU KM numFacs N : Nat} {chi : ℚ} {zU zM : Option (List Nat)}
    {flags : Flags} (ss : List Sample) :
    ∀ preds : List ℚ, preds.length = N →
      (ss.foldl (sampleStep rexp users items KU KM numFacs N chi zU zM flags)
        preds).length = N := by
  induction ss with
  | nil => intro preds h; simpa using h
  | cons s ss ih =>
    intro preds h
    exact ih _ (sampleStep_length h)

/-- The whole per-sample loop adds, to each slot below `N`, the sum of
the per-sample contributions. -/
theorem foldl_sampleStep_getD {rexp : ℚ → ℚ} {users items : List Nat}
    {KU KM numFacs N : Nat} {chi : ℚ} {zU zM : Option (List Nat)}
    {flags : Flags} {e : Nat} (ss : List Sample) (he : e < N) :
    ∀ preds : List ℚ,
      (ss.foldl (sampleStep rexp users items KU KM numFacs N chi zU zM flags)
        preds).getD e 0 =
      preds.getD e 0 +
        (ss.map (fun s =>
          perSampleContrib rexp users items KU KM numFacs chi zU zM flags s e)).sum := by
  induction ss with
  | nil => intro preds; simp
  | cons s ss ih =>
    intro preds
    rw [List.foldl_cons, ih, sampleStep_getD he, List.map_cons, List.sum_cons,
      add_assoc]

/-- Closed form of the whole computation: each output slot below the
batch length equals the sum over samples of the per-sample contribution
(computed with the chi of sample 0), divided by the sample count when it
exceeds one. -/
theorem predict_getD {rexp : ℚ → ℚ} {users items : List Nat}
    {samples : List Sample} {KU KM numFacs : Nat}
    {zU zM : Option (List Nat)} {flags : Flags} {e : Nat}
    (he : e < users.length) :
    (predict rexp users items samples KU KM numFacs zU zM flags).getD e 0 =
      postAvg samples.length
        ((samples.map (fun s =>
          perSampleContrib rexp users items KU KM numFacs
            (samples.headD defaultSample).chi zU zM flags s e)).sum) := by
  unfold predict postAvg accumPreds
  split_ifs with hT
  · rw [getD_map_of_lt
      (by rw [foldl_sampleStep_length samples _ (by simp)]; exact he),
      foldl_sampleStep_getD samples he, getD_replicate_zero, zero_add]
  · rw [foldl_sampleStep_getD samples he, getD_replicate_zero, zero_add]

/-- C8: on the concrete input N = 2, users = [1, 2], items = [1, 1],
one sample with one factor, a = [2, 3], b = [5], chi = 1, no topic
offsets, factorization flag only, the output is [11, 16]. -/
theorem predict_concrete_scenario :
    predict id [1, 2] [1, 1] [sample8] 0 0 1 none none flagsBase =
      [11, 16] := by
  norm_num [predict, accumPreds, sampleStep, addOffsets, offsetTerm, ddot,
    baseTerm, flagsBase, sample8, defaultSample, Finset.sum_range_succ,
    List.range_succ]

/-- C3: with the topic-assignment array absent and more than one topic,
`addOffsets` adds to each example slot exactly the sum, over the KU
topics, of the offset-table entry of the secondary entity times the
exponentiated log topic probability of the primary entity, with no
renormalization of the exponentiated values. -/
theorem addOffsets_integrates_out_topics (rexp : ℚ → ℚ)
    (users items : List Nat) (KU numExamples : Nat) (logthetaU d : List ℚ)
    (preds : List ℚ) (e : Nat) (hK : 1 < KU) (he : e < numExamples) :
    (addOffsets rexp users items KU numExamples logthetaU d none preds).getD e 0 =
      preds.getD e 0 +
        ∑ k ∈ Finset.range KU,
          d.getD ((items.getD e 0 - 1) * KU + k) 0 *
            rexp (logthetaU.getD ((users.getD e 0 - 1) * KU + k) 0) := by
  rw [addOffsets_getD he]
  unfold offsetTerm
  rw [if_pos hK]

/-- Witness for C3 at a concrete input: KU = 2 topics, offsets [2, 10],
log-probabilities [3, 7], identity in place of exp. -/
theorem addOffsets_integrates_out_topics_witness :
    (addOffsets id [1] [1] 2 1 [3, 7] [2, 10] none [0]).getD 0 0 =
      ([0] : List ℚ).getD 0 0 +
        ∑ k ∈ Finset.range 2,
          ([2, 10] : List ℚ).getD ((([1] : List Nat).getD 0 0 - 1) * 2 + k) 0 *
            id (([3, 7] : List ℚ).getD ((([1] : List Nat).getD 0 0 - 1) * 2 + k) 0) :=
  addOffsets_integrates_out_topics id [1] [1] 2 1 [3, 7] [2, 10] [0] 0
    (by decide) (by decide)

/-- C4: with the topic-assignment array present, `addOffsets` adds to
each example slot exactly the offset-table entry in the column of the
secondary entity and the row of the assigned topic, and the logtheta
table is never consulted: any two tables give the same result. -/
theorem addOffsets_known_topics (rexp : ℚ → ℚ) (users items : List Nat)
    (KU numExamples : Nat) (logthetaU logthetaU2 d : List ℚ) (z : List Nat)
    (preds : List ℚ) (e : Nat) (he : e < numExamples) :
    ((addOffsets rexp users items KU numExamples logthetaU d (some z) preds).getD e 0 =
      preds.getD e 0 +
        d.getD ((items.getD e 0 - 1) * KU + (z.getD e 0 - 1)) 0) ∧
    addOffsets rexp users items KU numExamples logthetaU d (some z) preds =
      addOffsets rexp users items KU numExamples logthetaU2 d (some z) preds := by
  constructor
  · rw [addOffsets_getD he]
    rfl
  · rfl

/-- Witness for C4 at a concrete input: topic assignment 2 selects the
second row of the offset table, and two different logtheta tables give
the same output. -/
theorem addOffsets_known_topics_witness :
    ((addOffsets id [1] [1] 2 1 [9, 9] [2, 10] (some [2]) [0]).getD 0 0 =
      ([0] : List ℚ).getD 0 0 +
        ([2, 10] : List ℚ).getD
          ((([1] : List Nat).getD 0 0 - 1) * 2 + (([2] : List Nat).getD 0 0 - 1)) 0) ∧
    addOffsets id [1] [1] 2 1 [9, 9] [2, 10] (some [2]) [0] =
      addOffsets id [1] [1] 2 1 [5, 5] [2, 10] (some [2]) [0] :=
  addOffsets_known_topics id [1] [1] 2 1 [9, 9] [5, 5] [2, 10] [2] [0] 0
    (by decide)

/-- With a single topic, the integrate-out branch and the known-topic
branch with an all-ones assignment compute the same offset vector. -/
theorem addOffsets_one_topic (rexp : ℚ → ℚ) (users items : List Nat)
    (numExamples M : Nat) (logthetaU d : List ℚ) (preds : List ℚ)
    (hM : numExamples ≤ M) :
    addOffsets rexp users items 1 numExamples logthetaU d none preds =
      addOffsets rexp users items 1 numExamples logthetaU d
        (some (List.replicate M 1)) preds := by
  unfold addOffsets
  apply List.map_congr_left
  intro e hemem
  have he : e < numExamples := List.mem_range.mp hemem
  have hz : ((List.replicate M 1)[e]?).getD 0 = 1 := by
    simp [List.getElem?_replicate, lt_of_lt_of_le he hM]
  unfold offsetTerm
  simp [List.getD_eq_getElem?_getD, hz]

/-- C5: with a single row topic (KU = 1), running the prediction with
topics integrated out and running it with an all-ones topic assignment
produce identical outputs, every other input held fixed. -/
theorem predict_single_topic_paths_agree (rexp : ℚ → ℚ)
    (users items : List Nat) (samples : List Sample) (KM numFacs : Nat)
    (zM : Option (List Nat)) (flags : Flags) :
    predict rexp users items samples 1 KM numFacs none zM flags =
      predict rexp users items samples 1 KM numFacs
        (some (List.replicate users.length 1)) zM flags := by
  have hstep :
      sampleStep rexp users items 1 KM numFacs users.length
        (samples.headD defaultSample).chi none zM flags =
      sampleStep rexp users items 1 KM numFacs users.length
        (samples.headD defaultSample).chi
        (some (List.replicate users.length 1)) zM flags := by
    funext preds s
    unfold sampleStep
    rw [addOffsets_one_topic rexp users items users.length users.length
      s.logthetaU s.d preds le_rfl]
  unfold predict accumPreds
  rw [hstep]

/-- With all three flags false, one iteration of the per-sample loop
leaves the accumulator untouched. -/
theorem sampleStep_all_flags_false (rexp : ℚ → ℚ) (users items : List Nat)
    (KU KM numFacs N : Nat) (chi : ℚ) (zU zM : Option (List Nat))
    (preds : List ℚ) (s : Sample) :
    sampleStep rexp users items KU KM numFacs N chi zU zM
      ⟨false, false, false⟩ preds s = preds := by
  unfold sampleStep
  simp

/-- C6: with the factorization, row-offset and column-offset flags all
false, every entry of the output vector is exactly zero, for every dyad
batch and every collection of samples. -/
theorem predict_all_flags_false (rexp : ℚ → ℚ) (users items : List Nat)
    (samples : List Sample) (KU KM numFacs : Nat)
    (zU zM : Option (List Nat)) :
    predict rexp users items samples KU KM numFacs zU zM
      ⟨false, false, false⟩ = List.replicate users.length 0 := by
  have hfold : ∀ (c : ℚ) (ss : List Sample) (init : List ℚ),
      ss.foldl
        (sampleStep rexp users items KU KM numFacs users.length c zU zM
          ⟨false, false, false⟩) init = init := by
    intro c ss
    induction ss with
    | nil => intro init; rfl
    | cons s ss ih =>
      intro init
      rw [List.foldl_cons, sampleStep_all_flags_false, ih]
  unfold predict accumPreds
  split_ifs with hT
  · rw [hfold]
    simp [List.map_replicate]
  · rw [hfold]

/-- C7: the output of the whole computation equals the accumulated
per-sample sum divided elementwise by the number of samples, whether or
not the explicit division pass runs (it is skipped exactly when there
is a single sample, and dividing by one is the identity). -/
theorem predict_eq_accum_div_samples (rexp : ℚ → ℚ) (users items : List Nat)
    (samples : List Sample) (KU KM numFacs : Nat)
    (zU zM : Option (List Nat)) (flags : Flags)
    (hT : 1 ≤ samples.length) :
    predict rexp users items samples KU KM numFacs zU zM flags =
      (accumPreds rexp users items samples KU KM numFacs zU zM flags).map
        (fun x => x / (samples.length : ℚ)) := by
  unfold predict
  split_ifs with h
  · rfl
  · have h1 : samples.length = 1 := le_antisymm (by omega) hT
    rw [h1]
    simp

/-- Witness for C7 at a concrete single-sample input. -/
theorem predict_eq_accum_div_samples_witness :
    predict id [1, 2] [1, 1] [sample8] 0 0 1 none none flagsBase =
      (accumPreds id [1, 2] [1, 1] [sample8] 0 0 1 none none flagsBase).map
        (fun x => x / (([sample8] : List Sample).length : ℚ)) :=
  predict_eq_accum_div_samples id [1, 2] [1, 1] [sample8] 0 0 1 none none
    flagsBase (by decide)

/-- The output vector always has the batch length. -/
theorem predict_length (rexp : ℚ → ℚ) (users items : List Nat)
    (samples : List Sample) (KU KM numFacs : Nat)
    (zU zM : Option (List Nat)) (flags : Flags) :
    (predict rexp users items samples KU KM numFacs zU zM flags).length =
      users.length := by
  unfold predict accumPreds
  split_ifs with hT
  · rw [List.length_map, foldl_sampleStep_length samples _ (by simp)]
  · rw [foldl_sampleStep_length samples _ (by simp)]

/-- Reading below the length agrees with indexed access. -/
theorem getD_eq_getElem_of_lt {l : List ℚ} {i : Nat} (h : i < l.length) :
    l.getD i 0 = l[i] := by
  rw [List.getD_eq_getElem?_getD, List.getElem?_eq_getElem h]
  rfl

/-- C9: with zero factors, factorization flag on and both offset flags
off, a single-sample call returns the chi of the sample at every slot, and
the output does not depend on the index arrays: any two batches of the
same length give equal outputs. -/
theorem predict_bias_only (rexp : ℚ → ℚ) (users items users2 items2 : List Nat)
    (s : Sample) (KU KM : Nat) (zU zM : Option (List Nat)) :
    (∀ e, e < users.length →
      (predict rexp users items [s] KU KM 0 zU zM flagsBase).getD e 0 = s.chi) ∧
    (users2.length = users.length →
      predict rexp users items [s] KU KM 0 zU zM flagsBase =
        predict rexp users2 items2 [s] KU KM 0 zU zM flagsBase) := by
  have hcall : ∀ (us is2 : List Nat) (e : Nat), e < us.length →
      (predict rexp us is2 [s] KU KM 0 zU zM flagsBase).getD e 0 = s.chi := by
    intro us is2 e he
    rw [predict_getD he]
    simp [postAvg, perSampleContrib, baseTerm, flagsBase]
  refine ⟨fun e he => hcall users items e he, fun hlen => ?_⟩
  apply List.ext_getElem
  · rw [predict_length, predict_length, hlen]
  · intro i h1 h2
    have g1 : i < users.length := by rwa [predict_length] at h1
    have g2 : i < users2.length := by rwa [predict_length] at h2
    have e1 := hcall users items i g1
    have e2 := hcall users2 items2 i g2
    rw [getD_eq_getElem_of_lt h1] at e1
    rw [getD_eq_getElem_of_lt h2] at e2
    rw [e1, e2]

/-- Witness for C9 at a concrete input. -/
theorem predict_bias_only_witness :
    ((predict id [1, 2] [1, 1] [sample8] 0 0 0 none none flagsBase).getD 0 0 =
      sample8.chi) ∧
    predict id [1, 2] [1, 1] [sample8] 0 0 0 none none flagsBase =
      predict id [7, 9] [3, 4] [sample8] 0 0 0 none none flagsBase :=
  ⟨(predict_bias_only id [1, 2] [1, 1] [7, 9] [3, 4] sample8 0 0 none none).1
      0 (by decide),
    (predict_bias_only id [1, 2] [1, 1] [7, 9] [3, 4] sample8 0 0 none none).2
      (by decide)⟩

/-- The offset contribution of an example depends only on that
own primary index of that example, secondary index and optional topic
assignment. -/
theorem offsetTerm_congr {rexp : ℚ → ℚ} {users items users2 items2 : List Nat}
    {K : Nat} {lt d : List ℚ} {z z2 : Option (List Nat)} {e : Nat}
    (hu : users.getD e 0 = users2.getD e 0)
    (hi : items.getD e 0 = items2.getD e 0)
    (hz : zAgree z z2 e) :
    offsetTerm rexp users items K lt d z e =
      offsetTerm rexp users2 items2 K lt d z2 e := by
  cases z with
  | none =>
    cases z2 with
    | none =>
      simp only [offsetTerm]
      rw [hu, hi]
    | some l2 => exact absurd hz (by simp [zAgree])
  | some l =>
    cases z2 with
    | none => exact absurd hz (by simp [zAgree])
    | some l2 =>
      have h : l.getD e 0 = l2.getD e 0 := hz
      simp only [offsetTerm]
      rw [hi, h]

/-- C10: per-example locality. Two calls that share the samples, the
flags, the batch length and the topic-assignment setting produce the
same output at each position where their row index, column index and
(when present) topic assignments coincide: an output entry depends only
on the data of its own example. -/
theorem predict_per_example_locality (rexp : ℚ → ℚ) (samples : List Sample)
    (KU KM numFacs : Nat) (flags : Flags)
    (users items users2 items2 : List Nat)
    (zU zM zU2 zM2 : Option (List Nat)) (e : Nat)
    (hN : users2.length = users.length) (he : e < users.length)
    (hu : users.getD e 0 = users2.getD e 0)
    (hi : items.getD e 0 = items2.getD e 0)
    (hzU : zAgree zU zU2 e) (hzM : zAgree zM zM2 e) :
    (predict rexp users items samples KU KM numFacs zU zM flags).getD e 0 =
      (predict rexp users2 items2 samples KU KM numFacs zU2 zM2 flags).getD e 0 := by
  have he2 : e < users2.length := by rw [hN]; exact he
  rw [predict_getD he, predict_getD he2]
  have hcontrib : ∀ s : Sample,
      perSampleContrib rexp users items KU KM numFacs
        (samples.headD defaultSample).chi zU zM flags s e =
      perSampleContrib rexp users2 items2 KU KM numFacs
        (samples.headD defaultSample).chi zU2 zM2 flags s e := by
    intro s
    unfold perSampleContrib
    rw [offsetTerm_congr hu hi hzU, offsetTerm_congr hi hu hzM]
    unfold baseTerm
    rw [hu, hi]
  rw [List.map_congr_left (fun s _ => hcontrib s)]

/-- Witness for C10 at a concrete input: the two calls differ in the
second example and in entries of the topic arrays beyond position 0,
but agree at position 0. -/
theorem predict_per_example_locality_witness :
    (predict id [1, 2] [1, 1] [sample8] 0 0 1 (some [3, 4]) none
      flagsBase).getD 0 0 =
      (predict id [1, 5] [1, 2] [sample8] 0 0 1 (some [3, 9]) none
        flagsBase).getD 0 0 :=
  predict_per_example_locality id [sample8] 0 0 1 flagsBase [1, 2] [1, 1]
    [1, 5] [1, 2] (some [3, 4]) none (some [3, 9]) none 0 (by decide)
    (by decide) (by decide) (by decide) (by exact rfl) (by exact trivial)

/-- C1 counterexample: two samples whose chi fields are 0 and 2, one
factor with zero factor vectors, factorization flag on. The code reads
chi once from sample 0 (line 119 of the C file, outside the per-sample
loop) and outputs [(0 + 0) / 2] = [0], whereas a per-sample chi as the
claim states would give [(0 + 2) / 2] = [1]. -/
theorem predict_own_chi_counterexample :
    predict id [1] [1] [sampleChi0, sampleChi2] 0 0 1 none none flagsBase =
      [0] ∧
    postAvg 2 ((sampleChi0.chi + ddot 1 sampleChi0.a sampleChi0.b 0 0) +
      (sampleChi2.chi + ddot 1 sampleChi2.a sampleChi2.b 0 0)) = 1 ∧
    (0 : ℚ) ≠ 1 := by
  refine ⟨?_, ?_, by norm_num⟩
  · norm_num [predict, accumPreds, sampleStep, addOffsets, offsetTerm, ddot,
      baseTerm, flagsBase, sampleChi0, sampleChi2, defaultSample,
      Finset.sum_range_succ, List.range_succ]
  · norm_num [postAvg, ddot, sampleChi0, sampleChi2, Finset.sum_range_succ]

/-- C1 amended: with the factorization flag on and numFacs > 0, every
sample contributes, to every example, the chi of sample 0 (read once,
before the per-sample loop) plus the inner product of the own factor
vectors of that sample for the row and column entities of the example;
a sample whose own chi differs still contributes the chi of sample 0. -/
theorem predict_factorization_contrib (rexp : ℚ → ℚ)
    (users items : List Nat) (samples : List Sample)
    (KU KM numFacs : Nat) (zU zM : Option (List Nat)) (flags : Flags)
    (e : Nat) (hbase : flags.addBase = true) (hF : 0 < numFacs)
    (he : e < users.length) :
    (predict rexp users items samples KU KM numFacs zU zM flags).getD e 0 =
      postAvg samples.length
        ((samples.map (fun s =>
          (if 0 < KU ∧ flags.addD = true then
            offsetTerm rexp users items KU s.logthetaU s.d zU e else 0) +
          (if 0 < KM ∧ flags.addC = true then
            offsetTerm rexp items users KM s.logthetaM s.c zM e else 0) +
          ((samples.headD defaultSample).chi +
            ddot numFacs s.a s.b (numFacs * (users.getD e 0 - 1))
              (numFacs * (items.getD e 0 - 1))))).sum) := by
  rw [predict_getD he]
  congr 1
  congr 1
  apply List.map_congr_left
  intro s _
  unfold perSampleContrib baseTerm
  rw [if_pos hbase, if_pos hF]

/-- Witness for the amended C1 at a concrete input. -/
theorem predict_factorization_contrib_witness :
    (predict id [1] [1] [sampleChi0, sampleChi2] 0 0 1 none none
      flagsBase).getD 0 0 =
      postAvg ([sampleChi0, sampleChi2] : List Sample).length
        ((([sampleChi0, sampleChi2] : List Sample).map (fun s =>
          (if 0 < 0 ∧ flagsBase.addD = true then
            offsetTerm id [1] [1] 0 s.logthetaU s.d none 0 else 0) +
          (if 0 < 0 ∧ flagsBase.addC = true then
            offsetTerm id [1] [1] 0 s.logthetaM s.c none 0 else 0) +
          ((([sampleChi0, sampleChi2] : List Sample).headD defaultSample).chi +
            ddot 1 s.a s.b (1 * (([1] : List Nat).getD 0 0 - 1))
              (1 * (([1] : List Nat).getD 0 0 - 1))))).sum) :=
  predict_factorization_contrib id [1] [1] [sampleChi0, sampleChi2] 0 0 1
    none none flagsBase 0 rfl (by decide) (by decide)

/-- C2 counterexample: with samples whose chi fields differ (0 and 2)
and the factorization flag on, the two-sample call outputs [0] while
the elementwise average of the two single-sample calls is [1]: the
single-sample calls each use the chi of their own sample (it is then
sample 0 of its call), but the two-sample call uses the chi of sample 0
twice. -/
theorem predict_average_counterexample :
    predict id [1] [1] [sampleChi0, sampleChi2] 0 0 0 none none flagsBase =
      [0] ∧
    ((predict id [1] [1] [sampleChi0] 0 0 0 none none flagsBase).getD 0 0 +
      (predict id [1] [1] [sampleChi2] 0 0 0 none none flagsBase).getD 0 0) / 2
      = 1 ∧
    (0 : ℚ) ≠ 1 := by
  refine ⟨?_, ?_, by norm_num⟩
  · norm_num [predict, accumPreds, sampleStep, addOffsets, offsetTerm, ddot,
      baseTerm, flagsBase, sampleChi0, sampleChi2, defaultSample,
      List.range_succ]
  · norm_num [predict, accumPreds, sampleStep, addOffsets, offsetTerm, ddot,
      baseTerm, flagsBase, sampleChi0, sampleChi2, defaultSample,
      List.range_succ]

/-- C2 amended: when every sample carries the same chi value as the
first one (the code reads chi only from sample 0), the multi-sample
call equals, at every slot, the average of the single-sample calls with
flags, dyads and topic assignments held fixed. -/
theorem predict_average_of_singles (rexp : ℚ → ℚ)
    (users items : List Nat) (samples : List Sample)
    (KU KM numFacs : Nat) (zU zM : Option (List Nat)) (flags : Flags)
    (e : Nat)
    (hchi : ∀ s ∈ samples, s.chi = (samples.headD defaultSample).chi)
    (hT : 1 ≤ samples.length) (he : e < users.length) :
    (predict rexp users items samples KU KM numFacs zU zM flags).getD e 0 =
      (samples.map (fun s =>
        (predict rexp users items [s] KU KM numFacs zU zM flags).getD e 0)).sum
        / (samples.length : ℚ) := by
  have hsingle : ∀ s ∈ samples,
      (predict rexp users items [s] KU KM numFacs zU zM flags).getD e 0 =
        perSampleContrib rexp users items KU KM numFacs
          (samples.headD defaultSample).chi zU zM flags s e := by
    intro s hs
    rw [predict_getD he]
    simp only [postAvg, List.length_cons, List.length_nil, List.headD_cons,
      List.map_cons, List.map_nil, List.sum_cons, List.sum_nil, add_zero,
      Nat.lt_irrefl, if_neg (by omega : ¬ (1 : Nat) < 0 + 1)]
    rw [if_neg not_false]
    rw [hchi s hs]
  rw [predict_getD he, List.map_congr_left hsingle]
  unfold postAvg
  split_ifs with h
  · rfl
  · have h1 : samples.length = 1 := le_antisymm (by omega) hT
    rw [h1]
    simp

/-- Witness for the amended C2 at a concrete input with two equal-chi
samples. -/
theorem predict_average_of_singles_witness :
    (predict id [1, 2] [1, 1] [sample8, sample8] 0 0 1 none none
      flagsBase).getD 0 0 =
      (([sample8, sample8] : List Sample).map (fun s =>
        (predict id [1, 2] [1, 1] [s] 0 0 1 none none flagsBase).getD 0 0)).sum
        / (([sample8, sample8] : List Sample).length : ℚ) :=
  predict_average_of_singles id [1, 2] [1, 1] [sample8, sample8] 0 0 1
    none none flagsBase 0
    (by intro s hs; fin_cases hs <;> rfl) (by decide) (by decide)
